import Mathlib

/-!
Verification development for the AstroChop core numerics
(`src/lambert.py`, `src/ephemeris.py`).

Modelling conventions.

Floating-point scalars are modelled by the type `FR` below: either a real
number (`FR.val`) or the single non-finite marker `FR.nan`.  Arithmetic on
`FR` propagates the marker exactly as IEEE NaN propagates through numpy
arithmetic, and every comparison involving the marker is `false`, as in
IEEE.  Two deliberate collapses, noted where they matter: division by an
exact zero (which numpy turns into an infinity, or NaN for `0/0`, plus a
warning) is mapped to the `nan` marker, and square roots of negative
numbers (numpy: NaN) are mapped to `nan` as well.  No claim under study
distinguishes infinities from NaN.

Vectorized numpy code is embedded element-wise: an array indexed by the
batch axis becomes a function `Fin n → FR` (or a `List` for the ephemeris
claims, whose batched form ranges over epoch lists), and a masked
in-place update `x[mask] = e` becomes the pointwise
`if mask i then e i else x i`.  Heap identity of the numpy buffers (which
arrays a call allocates and which it writes) is modelled separately by
`lambertHeap` below.
-/

noncomputable section

/-- An IEEE-style scalar: a real value or the non-finite marker. -/
inductive FR where
  | nan : FR
  | val : ℝ → FR

namespace FR

/-- NaN-propagating addition. -/
def add : FR → FR → FR
  | val a, val b => val (a + b)
  | _, _ => nan

/-- NaN-propagating subtraction. -/
def sub : FR → FR → FR
  | val a, val b => val (a - b)
  | _, _ => nan

/-- NaN-propagating multiplication (as in IEEE, `0 * nan = nan`). -/
def mul : FR → FR → FR
  | val a, val b => val (a * b)
  | _, _ => nan

/-- NaN-propagating negation. -/
def neg : FR → FR
  | val a => val (-a)
  | nan => nan

/-- NaN-propagating absolute value. -/
def abs : FR → FR
  | val a => val |a|
  | nan => nan

/-- Division.  numpy maps division by an exact zero to ±inf (or NaN for
`0/0`); this model collapses those non-finite outcomes to the single
`nan` marker. -/
def div : FR → FR → FR
  | val a, val b => if b = 0 then nan else val (a / b)
  | _, _ => nan

/-- Square root; negative arguments give NaN, exactly as `np.sqrt`. -/
def sqrt : FR → FR
  | val a => if a < 0 then nan else val (Real.sqrt a)
  | nan => nan

/-- Strict less-than as a boolean; any comparison with NaN is `false`,
matching the IEEE comparison semantics of numpy masks. -/
def lt : FR → FR → Bool
  | val a, val b => decide (a < b)
  | _, _ => false

/-- Equality test against zero (`x == 0` in numpy); NaN compares unequal. -/
def eqZero : FR → Bool
  | val a => decide (a = 0)
  | nan => false

/-- The `np.isnan` test. -/
def isNan : FR → Bool
  | nan => true
  | val _ => false

/-- `np.clip(x, lo, hi)`; NaN passes through, as in numpy. -/
def clip (lo hi : ℝ) : FR → FR
  | val x => val (max lo (min x hi))
  | nan => nan

end FR

/-- A 3-vector of real components (an input position vector). -/
def Vec3 : Type := ℝ × ℝ × ℝ

/-- A 3-vector of floating scalars (an output velocity vector). -/
def FRV : Type := FR × FR × FR

/-- `SQRT2` from `lambert.py` line 5 (`np.sqrt(2.0)`). -/
def SQRT2 : ℝ := Real.sqrt 2.0

/-- `INV_3` from `lambert.py` line 6 (`1.0 / 3.0`). -/
def INV_3 : ℝ := 1.0 / 3.0

/-- Embeds `_compute_term_ratio` (`lambert.py` lines 51-143), the
universal-variable auxiliary kernel, element-wise; the second component
of the result is the `ratio` output of the source.  The three numpy
masks `z >= 0.1`, `z <= -0.1` and `~(large_pos | large_neg)` are disjoint
and exhaustive, so they become an if-chain.  A NaN input satisfies
neither large-regime comparison in numpy, falls into the small regime
and propagates through the Horner polynomials, so the embedding sends
the marker to a pair of markers. -/
def computeTermRat : FR → FR × FR
  | FR.nan => (FR.nan, FR.nan)
  | FR.val z =>
    if z ≥ 0.1 then
      -- Large positive regime (lines 71-84)
      (FR.val (-SQRT2 * Real.cos (Real.sqrt z * 0.5)),
       FR.val ((Real.sqrt z - 2 * Real.sin (Real.sqrt z * 0.5) * Real.cos (Real.sqrt z * 0.5)) /
         (2 * SQRT2 * (Real.sin (Real.sqrt z * 0.5) * Real.sin (Real.sqrt z * 0.5) *
           Real.sin (Real.sqrt z * 0.5)))))
    else if z ≤ -0.1 then
      -- Large negative regime (lines 87-100), with `zn = -z`
      (FR.val (-SQRT2 * Real.cosh (Real.sqrt (-z) * 0.5)),
       FR.val ((2 * Real.sinh (Real.sqrt (-z) * 0.5) * Real.cosh (Real.sqrt (-z) * 0.5) -
           Real.sqrt (-z)) /
         (2 * SQRT2 * (Real.sinh (Real.sqrt (-z) * 0.5) * Real.sinh (Real.sqrt (-z) * 0.5) *
           Real.sinh (Real.sqrt (-z) * 0.5)))))
    else
      -- Small regime (lines 105-141): Horner-evaluated series
      (FR.val (-SQRT2 *
         (((((9.68817756e-8 : ℝ) * z - 2.17013889e-5) * z + 0.00260416667) * z - 0.125) * z + 1.0)),
       FR.val ((SQRT2 * INV_3) *
         ((((((2.24778741e-7 : ℝ) * z + 6.24091078e-6) * z + 1.61830357e-4) * z +
           3.79464286e-3) * z + 7.5e-2) * z + 1.0)))

/-- The feasibility quantity `y_val = r_sum + A * term` of
`_compute_t_internal` (`lambert.py` line 153). -/
def yOf (z r_sum A : FR) : FR := r_sum.add (A.mul (computeTermRat z).1)

/-- Embeds `_compute_t_internal` (`lambert.py` lines 145-179)
element-wise: the output array is pre-filled with NaN
(`np.full_like(z_vals, np.nan)`) and only entries with `y_val > 0` are
overwritten with `sqrt(y) * (y * ratio + A) * inv_sqrt_mu`. -/
def computeTInternal (z r_sum A inv_sqrt_mu : FR) : FR :=
  if FR.lt (FR.val 0) (yOf z r_sum A) then
    ((yOf z r_sum A).sqrt.mul (((yOf z r_sum A).mul (computeTermRat z).2).add A)).mul inv_sqrt_mu
  else FR.nan

/-! ### Ephemeris propagator (`ephemeris.py`) -/

/-- `MU_SUN` from `ephemeris.py` line 4. -/
def MU_SUN : ℝ := 1.32712440018e11

/-- `AU` from `ephemeris.py` line 26. -/
def AU : ℝ := 149597870.7

/-- `J2000` from `ephemeris.py` line 29. -/
def J2000 : ℝ := 2451545.0

/-- `np.radians`: degrees to radians. -/
def deg2rad (x : ℝ) : ℝ := x * (Real.pi / 180)

/-- The fixed-point (Picard) iteration `E <- M + e*sin(E)` of
`ephemeris.py` lines 83-85, seeded at `E0 = M`, unrolled `k` times. -/
def keplerPicard (e M : ℝ) : ℕ → ℝ
  | 0 => M
  | k + 1 => M + e * Real.sin (keplerPicard e M k)

/-- The eccentric anomaly actually used by `get_ephemeris`: exactly 10
Picard iterations, no early exit (`ephemeris.py` lines 83-85). -/
def keplerE (e M : ℝ) : ℝ := keplerPicard e M 10

/-- A 3×3 rotation matrix, stored by rows. -/
def Mat3 : Type := Vec3 × Vec3 × Vec3

/-- `R3` from `ephemeris.py` lines 147-149. -/
def R3mat (ang : ℝ) : Mat3 :=
  ((Real.cos ang, -Real.sin ang, 0), (Real.sin ang, Real.cos ang, 0), (0, 0, 1))

/-- `R1` from `ephemeris.py` lines 151-153. -/
def R1mat (ang : ℝ) : Mat3 :=
  ((1, 0, 0), (0, Real.cos ang, -Real.sin ang), (0, Real.sin ang, Real.cos ang))

/-- Row–vector dot product. -/
def dot3R (r v : Vec3) : ℝ := r.1 * v.1 + r.2.1 * v.2.1 + r.2.2 * v.2.2

/-- Matrix–vector product (`M_rot @ r_peri` per epoch column). -/
def matVec (m : Mat3) (v : Vec3) : Vec3 :=
  (dot3R m.1 v, dot3R m.2.1 v, dot3R m.2.2 v)

/-- Column extraction helpers for the matrix–matrix product. -/
def col1 (m : Mat3) : Vec3 := (m.1.1, m.2.1.1, m.2.2.1)

def col2 (m : Mat3) : Vec3 := (m.1.2.1, m.2.1.2.1, m.2.2.2.1)

def col3 (m : Mat3) : Vec3 := (m.1.2.2, m.2.1.2.2, m.2.2.2.2)

/-- Matrix–matrix product (`R3(O) @ R1(i) @ R3(w)`, line 155). -/
def matMul (a b : Mat3) : Mat3 :=
  ((dot3R a.1 (col1 b), dot3R a.1 (col2 b), dot3R a.1 (col3 b)),
   (dot3R a.2.1 (col1 b), dot3R a.2.1 (col2 b), dot3R a.2.1 (col3 b)),
   (dot3R a.2.2 (col1 b), dot3R a.2.2 (col2 b), dot3R a.2.2 (col3 b)))

/-- Perifocal position and velocity from the eccentric anomaly
(`ephemeris.py` lines 92-98 and 116-118); `a` is already in km. -/
def periState (a e E : ℝ) : Vec3 × Vec3 :=
  ((a * (Real.cos E - e), a * Real.sqrt (1 - e ^ 2) * Real.sin E, 0),
   (-(Real.sqrt (MU_SUN * a) / (a * (1 - e * Real.cos E))) * Real.sin E,
    (Real.sqrt (MU_SUN * a) / (a * (1 - e * Real.cos E))) * Real.sqrt (1 - e ^ 2) * Real.cos E,
    0))

/-- Rotation of a perifocal state into the inertial frame (lines 159-160). -/
def rotState (m : Mat3) (rv : Vec3 × Vec3) : Vec3 × Vec3 := (matVec m rv.1, matVec m rv.2)

/-- Earth's `M_rot = R3(O) @ R1(i) @ R3(w)` (line 155; elements from
lines 35-43, all epoch-independent). -/
def earthMrot : Mat3 :=
  matMul (matMul (R3mat (deg2rad (-11.26064))) (R1mat (deg2rad 0.00005)))
    (R3mat (deg2rad 102.94719))

/-- Mars's rotation matrix; `w = w_bar - O` (lines 77-78). -/
def marsMrot : Mat3 :=
  matMul (matMul (R3mat (deg2rad 49.57854)) (R1mat (deg2rad 1.85061)))
    (R3mat (deg2rad (336.04084 - 49.57854)))

/-- Earth's mean anomaly `M = radians(L - w - O + n*d)` (line 61). -/
def earthMean (d : ℝ) : ℝ := deg2rad (100.46435 - 102.94719 - (-11.26064) + 0.985609 * d)

/-- Mars's mean anomaly `M = radians(M0 + n*d)` (line 70). -/
def marsMean (d : ℝ) : ℝ := deg2rad (19.412 + 0.524039 * d)

/-- The full per-epoch pipeline for Earth: elapsed days, mean anomaly,
Kepler solve, perifocal state, rotation (`ephemeris.py` lines 30-163,
`earth` branch). -/
def earthPoint (jd : ℝ) : Vec3 × Vec3 :=
  rotState earthMrot
    (periState (1.00000011 * AU) 0.01671022 (keplerE 0.01671022 (earthMean (jd - J2000))))

/-- The full per-epoch pipeline for Mars (`mars` branch). -/
def marsPoint (jd : ℝ) : Vec3 × Vec3 :=
  rotState marsMrot
    (periState (1.52366231 * AU) 0.09341233 (keplerE 0.09341233 (marsMean (jd - J2000))))

/-- `get_ephemeris` (`ephemeris.py` lines 6-163) instantiated at a single
scalar epoch.  The unknown-body `ValueError` (line 80) becomes the
`Except.error` branch; it fires before any numeric work on the epoch. -/
def getEphemeris (body_name : String) (jd : ℝ) : Except String (Vec3 × Vec3) :=
  if body_name = "earth" then Except.ok (earthPoint jd)
  else if body_name = "mars" then Except.ok (marsPoint jd)
  else Except.error ("Unknown body: " ++ body_name)

/-- `get_ephemeris` instantiated at an epoch array.  Every numpy stage of
the source (elapsed days, mean anomaly, the ten Kepler iterations, the
perifocal coordinates, and the per-column rotation `M_rot @ r_peri`)
operates element-wise over the epoch axis, so each stage is a `List.map`
of the corresponding scalar stage. -/
def getEphemerisList (body_name : String) (jd : List ℝ) : Except String (List (Vec3 × Vec3)) :=
  let d := jd.map (fun x => x - J2000)
  if body_name = "earth" then
    Except.ok ((((d.map earthMean).map (keplerE 0.01671022)).map
      (periState (1.00000011 * AU) 0.01671022)).map (rotState earthMrot))
  else if body_name = "mars" then
    Except.ok ((((d.map marsMean).map (keplerE 0.09341233)).map
      (periState (1.52366231 * AU) 0.09341233)).map (rotState marsMrot))
  else Except.error ("Unknown body: " ++ body_name)

/-! ### Lambert batch solver (`lambert.py` lines 181-343) -/

/-- `np.linalg.norm(v, axis=-1)` for one 3-vector. -/
def norm3 (v : Vec3) : ℝ := Real.sqrt (v.1 * v.1 + v.2.1 * v.2.1 + v.2.2 * v.2.2)

/-- `np.sum(r1_vec * r2_vec, axis=-1)` for one element. -/
def dot3 (a b : Vec3) : ℝ := a.1 * b.1 + a.2.1 * b.2.1 + a.2.2 * b.2.2

/-- `cos_dnu = clip(dot/(r1*r2), -1, 1)` (lines 218-219); the division is
NaN-collapsing for degenerate zero-magnitude inputs. -/
def cosDnuOf (r1 r2 : Vec3) : FR :=
  ((FR.val (dot3 r1 r2)).div (FR.val (norm3 r1 * norm3 r2))).clip (-1) 1

/-- `A = tm * sqrt(r1 * r2 * (1 + cos_dnu))` (line 222). -/
def lambertA (tm : ℝ) (r1 r2 : Vec3) : FR :=
  (FR.val tm).mul (FR.sqrt ((FR.val (norm3 r1 * norm3 r2)).mul ((FR.val 1).add (cosDnuOf r1 r2))))

/-- `inv_sqrt_mu = 1.0 / np.sqrt(mu)` (line 228): NaN for `mu < 0`
(numpy: `sqrt` of a negative is NaN) and the collapsed non-finite marker
for `mu = 0` (numpy: an infinity). -/
def invSqrtMu (mu : ℝ) : FR := (FR.val 1.0).div (FR.sqrt (FR.val mu))

/-- The per-element constants of one `lambert` call (lines 212-228): the
batch of `r_sum` and `A` values, the shared `inv_sqrt_mu`, and the raw
`dt` and `tol` arguments that the secant loop reads. -/
structure LCtx (n : ℕ) where
  rsum : Fin n → FR
  A : Fin n → FR
  ism : FR
  dtv : Fin n → ℝ
  tol : ℝ

/-- Assembly of the constants from the call arguments (lines 212-228). -/
def mkLCtx {n : ℕ} (r1v r2v : Fin n → Vec3) (dtv : Fin n → ℝ) (mu tm tol : ℝ) : LCtx n where
  rsum := fun i => FR.val (norm3 (r1v i) + norm3 (r2v i))
  A := fun i => lambertA tm (r1v i) (r2v i)
  ism := invSqrtMu mu
  dtv := dtv
  tol := tol

/-- The mutable per-element solver state of the secant loop
(lines 233-242): the two iterates `z0, z1`, their times of flight
`t0, t1`, and the convergence mask. -/
structure LState (n : ℕ) where
  z0 : Fin n → FR
  z1 : Fin n → FR
  t0 : Fin n → FR
  t1 : Fin n → FR
  converged : Fin n → Bool

/-- Initial state (lines 233-242): seeds `z0 = 0`, `z1 = 1`, their
residual evaluations on the full batch, and an all-false mask. -/
def lambertInit {n : ℕ} (c : LCtx n) : LState n where
  z0 := fun _ => FR.val 0
  z1 := fun _ => FR.val 1
  t0 := fun i => computeTInternal (FR.val 0) (c.rsum i) (c.A i) c.ism
  t1 := fun i => computeTInternal (FR.val 1) (c.rsum i) (c.A i) c.ism
  converged := fun _ => false

/-- `diff = t1 - dt` (line 245). -/
def diffAt {n : ℕ} (c : LCtx n) (s : LState n) (i : Fin n) : FR :=
  (s.t1 i).sub (FR.val (c.dtv i))

/-- The per-element convergence test `np.abs(diff) < tol` (line 250);
false on NaN, as the source comment notes. -/
def convTest {n : ℕ} (c : LCtx n) (s : LState n) (i : Fin n) : Bool :=
  FR.lt ((diffAt c s i).abs) (FR.val c.tol)

/-- `converged |= just_converged` (line 251). -/
def convNew {n : ℕ} (c : LCtx n) (s : LState n) (i : Fin n) : Bool :=
  s.converged i || convTest c s i

/-- `active = ~converged` (line 254). -/
def activeAt {n : ℕ} (c : LCtx n) (s : LState n) (i : Fin n) : Bool :=
  !(convNew c s i)

/-- The guarded secant denominator (lines 266-267):
`denom_sec[denom_sec == 0] = 1e-12`; a NaN denominator is not caught by
the `== 0` test and stays NaN. -/
def secDenom {n : ℕ} (s : LState n) (i : Fin n) : FR :=
  if ((s.t1 i).sub (s.t0 i)).eqZero then FR.val 1e-12 else (s.t1 i).sub (s.t0 i)

/-- `dz = -diff * (z1 - z0) / denom_sec` (line 269). -/
def dzAt {n : ℕ} (c : LCtx n) (s : LState n) (i : Fin n) : FR :=
  (((diffAt c s i).neg).mul ((s.z1 i).sub (s.z0 i))).div (secDenom s i)

/-- `z_new = z1 + dz` (line 270). -/
def zNewAt {n : ℕ} (c : LCtx n) (s : LState n) (i : Fin n) : FR :=
  (s.z1 i).add (dzAt c s i)

/-- The residual evaluation of the proposed iterate (line 282). -/
def tNewAt {n : ℕ} (c : LCtx n) (s : LState n) (i : Fin n) : FR :=
  computeTInternal (zNewAt c s i) (c.rsum i) (c.A i) c.ism

/-- One iteration of the secant loop (lines 244-317), element-wise.  The
masked assignments `z0[active] = z1_a`, …, `t1[active] = t_val_a` become
the `if activeAt …` updates; the NaN-recovery writes
`z1[full_nan_mask] = z0[full_nan_mask]` and
`t1[full_nan_mask] = t0[full_nan_mask]` (lines 310-317), which overwrite
the just-assigned values with the previous iterate, become the inner
`if (tNewAt …).isNan` alternatives.  The source's early `break` when no
element is active (lines 256-257) is dropped: when nothing is active,
every masked update is the identity and `converged` is unchanged by
further iterations, so the final state is identical. -/
def lambertStep {n : ℕ} (c : LCtx n) (s : LState n) : LState n where
  z0 := fun i => if activeAt c s i then s.z1 i else s.z0 i
  t0 := fun i => if activeAt c s i then s.t1 i else s.t0 i
  z1 := fun i => if activeAt c s i then
      (if (tNewAt c s i).isNan then s.z1 i else zNewAt c s i)
    else s.z1 i
  t1 := fun i => if activeAt c s i then
      (if (tNewAt c s i).isNan then s.t1 i else tNewAt c s i)
    else s.t1 i
  converged := fun i => convNew c s i

/-- `for _ in range(k)` over the secant iteration. -/
def iterSteps {n : ℕ} (c : LCtx n) : ℕ → LState n → LState n
  | 0, s => s
  | k + 1, s => iterSteps c k (lambertStep c s)

/-- The final `z = z1` after the iteration budget (lines 319-320). -/
def lambertZfinal {n : ℕ} (c : LCtx n) (maxIter : ℕ) : Fin n → FR :=
  (iterSteps c maxIter (lambertInit c)).z1

/-- Lift a real 3-vector into floating scalars. -/
def vOfR (v : Vec3) : FRV := (FR.val v.1, FR.val v.2.1, FR.val v.2.2)

/-- Component-wise vector subtraction over `FR`. -/
def fvSub (a b : FRV) : FRV := (a.1.sub b.1, a.2.1.sub b.2.1, a.2.2.sub b.2.2)

/-- Scalar–vector product over `FR` (the broadcast `f_exp * r1_vec`). -/
def fvSmul (c : FR) (v : FRV) : FRV := (c.mul v.1, c.mul v.2.1, c.mul v.2.2)

/-- Vector–scalar division over `FR` (the broadcast `/ g_exp`). -/
def fvDiv (v : FRV) (c : FR) : FRV := (v.1.div c, v.2.1.div c, v.2.2.div c)

/-- The whole batched `lambert` body (lines 181-338): constants, secant
loop, Lagrange coefficients `f`, `g`, `g_dot` from the final `z`
(lines 322-335), and the velocity vectors (lines 337-338).  The
`warnings.catch_warnings` block only silences numpy warnings and has no
value-level effect. -/
def lambertBody {n : ℕ} (r1v r2v : Fin n → Vec3) (dtv : Fin n → ℝ) (mu tm tol : ℝ)
    (maxIter : ℕ) : (Fin n → FRV) × (Fin n → FRV) :=
  let c := mkLCtx r1v r2v dtv mu tm tol
  let z := lambertZfinal c maxIter
  -- y = r1 + r2 + A * term (line 324); r1 + r2 equals the precomputed r_sum
  let y := fun i => (c.rsum i).add ((c.A i).mul (computeTermRat (z i)).1)
  let f := fun i => (FR.val 1).sub ((y i).div (FR.val (norm3 (r1v i))))
  let g := fun i => (c.A i).mul (FR.sqrt ((y i).div (FR.val mu)))
  let gdot := fun i => (FR.val 1).sub ((y i).div (FR.val (norm3 (r2v i))))
  (fun i => fvDiv (fvSub (vOfR (r2v i)) (fvSmul (f i) (vOfR (r1v i)))) (g i),
   fun i => fvDiv (fvSub (fvSmul (gdot i) (vOfR (r2v i))) (vOfR (r1v i))) (g i))

/-- `lambert` as the caller sees it.  The codomain is an error monad so
that call-level rejection is statable; the source body contains no
`raise` on any path, so no `Except.error` is ever constructed. -/
def lambert {n : ℕ} (r1v r2v : Fin n → Vec3) (dtv : Fin n → ℝ) (mu tm tol : ℝ)
    (maxIter : ℕ) : Except String ((Fin n → FRV) × (Fin n → FRV)) :=
  Except.ok (lambertBody r1v r2v dtv mu tm tol maxIter)

/-- The scalar entry of `lambert` (lines 198-209 and 340-343): a 1-D
input is promoted to a batch of one (`r1_vec[np.newaxis, :]`,
`np.atleast_1d(dt)`), the general path runs, and element 0 of the result
is returned. -/
def lambertScalar (r1 r2 : Vec3) (dt mu tm tol : ℝ) (maxIter : ℕ) :
    Except String (FRV × FRV) :=
  match lambert (n := 1) (fun _ => r1) (fun _ => r2) (fun _ => dt) mu tm tol maxIter with
  | Except.ok out => Except.ok (out.1 0, out.2 0)
  | Except.error e => Except.error e

/-! ### Buffer-level model of `lambert` (memory ownership, C9)

The functional embedding above has no mutation, so the ownership claim
(inputs borrowed read-only, outputs freshly allocated, no aliasing) is
stated against an explicit store of numpy buffers.  A buffer is a list
of scalars (or of booleans for the convergence mask, or of 3-vectors for
the `(..., 3)` position/velocity arrays); the store is a list of
buffers, a buffer's address is its allocation index, `alloc` appends,
and an in-place masked assignment overwrites the buffer at its address.
The numeric contents are supplied by the functional embedding, so the
two layers agree by construction.  Read-only temporaries that the loop
never revisits (per-iteration subset copies such as `z0_a`, `diff`)
are fresh allocations in the source as well; the store model keeps the
named long-lived buffers and the outputs, which is enough to decide
what is written and what is fresh, since omitting further fresh
allocations only shifts later addresses upward. -/

/-- One numpy buffer. -/
inductive NArr where
  | fa : List FR → NArr
  | ba : List Bool → NArr
  | va : List FRV → NArr

/-- The store of buffers; an address is an index into the list. -/
abbrev Heap : Type := List NArr

/-- Allocation: append a fresh buffer, return its address. -/
def halloc (h : Heap) (x : NArr) : Heap × ℕ := (List.append h [x], h.length)

/-- In-place overwrite of the buffer at address `a`. -/
def hwrite (h : Heap) (a : ℕ) (x : NArr) : Heap := h.set a x

/-- The writes one secant iteration performs: the five long-lived state
buffers are updated in place (`converged |=` on line 251, the masked
assignments on lines 273-275, 283 and the recovery writes on
lines 314-317; the model stores each buffer's end-of-iteration value). -/
def stateWrite {n : ℕ} (az0 az1 at0 at1 acv : ℕ) (s : LState n) (h : Heap) : Heap :=
  hwrite (hwrite (hwrite (hwrite (hwrite h acv (NArr.ba (List.ofFn s.converged)))
    az0 (NArr.fa (List.ofFn s.z0))) at0 (NArr.fa (List.ofFn s.t0)))
    az1 (NArr.fa (List.ofFn s.z1))) at1 (NArr.fa (List.ofFn s.t1))

/-- The secant loop at the buffer level: each iteration advances the
functional state and writes the five state buffers in place. -/
def loopHeap {n : ℕ} (c : LCtx n) (az0 az1 at0 at1 acv : ℕ) : ℕ → LState n → Heap → Heap
  | 0, _, h => h
  | k + 1, s, h =>
      loopHeap c az0 az1 at0 at1 acv k (lambertStep c s)
        (stateWrite az0 az1 at0 at1 acv (lambertStep c s) h)

/-- One call to `lambert` at the buffer level.  `h0` is the store on
entry; the input arrays `r1_vec`, `r2_vec`, `dt` live somewhere in `h0`
and are only read (the model touches no pre-existing address).  Returns
the final store and the addresses of the two output buffers. -/
def lambertHeap {n : ℕ} (h0 : Heap) (r1v r2v : Fin n → Vec3) (dtv : Fin n → ℝ)
    (mu tm tol : ℝ) (maxIter : ℕ) : Heap × ℕ × ℕ :=
  let c := mkLCtx r1v r2v dtv mu tm tol
  -- prelude temporaries (lines 212-228), each a fresh buffer
  let p1 := halloc h0 (NArr.fa (List.ofFn fun i => FR.val (norm3 (r1v i))))
  let p2 := halloc p1.1 (NArr.fa (List.ofFn fun i => FR.val (norm3 (r2v i))))
  let p3 := halloc p2.1 (NArr.fa (List.ofFn fun i => FR.val (dot3 (r1v i) (r2v i))))
  let p4 := halloc p3.1 (NArr.fa (List.ofFn fun i => cosDnuOf (r1v i) (r2v i)))
  let p5 := halloc p4.1 (NArr.fa (List.ofFn fun i => c.A i))
  let p6 := halloc p5.1 (NArr.fa (List.ofFn fun i => c.rsum i))
  -- solver state buffers (lines 233-242)
  let q0 := halloc p6.1 (NArr.fa (List.ofFn (lambertInit c).z0))
  let q1 := halloc q0.1 (NArr.fa (List.ofFn (lambertInit c).z1))
  let q2 := halloc q1.1 (NArr.fa (List.ofFn (lambertInit c).t0))
  let q3 := halloc q2.1 (NArr.fa (List.ofFn (lambertInit c).t1))
  let q4 := halloc q3.1 (NArr.ba (List.ofFn (lambertInit c).converged))
  -- secant loop (lines 244-317): in-place writes to the state buffers
  let hL := loopHeap c q0.2 q1.2 q2.2 q3.2 q4.2 maxIter (lambertInit c) q4.1
  -- output arrays (lines 337-338): fresh buffers handed to the caller
  let b1 := halloc hL (NArr.va (List.ofFn (lambertBody r1v r2v dtv mu tm tol maxIter).1))
  let b2 := halloc b1.1 (NArr.va (List.ofFn (lambertBody r1v r2v dtv mu tm tol maxIter).2))
  (b2.1, b1.2, b2.2)

/-! ### Concrete instances used by the witnesses -/

/-- A batch-of-one context whose element is active with a NaN secant
proposal: both stored residuals are NaN. -/
def wCtx5 : LCtx 1 :=
  { rsum := fun _ => FR.val 2, A := fun _ => FR.val 0, ism := FR.val 1,
    dtv := fun _ => 1, tol := 1e-5 }

/-- A batch-of-one state whose residuals are NaN (an infeasible pair of
iterates), not yet marked converged. -/
def wSt5 : LState 1 :=
  { z0 := fun _ => FR.val 0, z1 := fun _ => FR.val 1,
    t0 := fun _ => FR.nan, t1 := fun _ => FR.nan, converged := fun _ => false }

/-- A batch-of-one state already marked converged. -/
def wSt4 : LState 1 :=
  { z0 := fun _ => FR.val 0, z1 := fun _ => FR.val 1,
    t0 := fun _ => FR.val 1, t1 := fun _ => FR.val 1, converged := fun _ => true }

/-- A batch-of-one context with `inv_sqrt_mu = NaN` (a `mu < 0` call):
every residual evaluation is NaN from the first iteration on. -/
def wCtx10 : LCtx 1 :=
  { rsum := fun _ => FR.val 1, A := fun _ => FR.val 0, ism := FR.nan,
    dtv := fun _ => 1, tol := 1e-5 }

/-! ### Helper lemmas on the scalar model -/

theorem FR.mul_nan (x : FR) : x.mul FR.nan = FR.nan := by cases x <;> rfl

theorem FR.nan_mul (x : FR) : FR.mul FR.nan x = FR.nan := by cases x <;> rfl

theorem FR.add_nan (x : FR) : x.add FR.nan = FR.nan := by cases x <;> rfl

theorem FR.nan_add (x : FR) : FR.add FR.nan x = FR.nan := by cases x <;> rfl

theorem FR.sub_nan (x : FR) : x.sub FR.nan = FR.nan := by cases x <;> rfl

theorem FR.nan_sub (x : FR) : FR.sub FR.nan x = FR.nan := by cases x <;> rfl

theorem FR.nan_div (x : FR) : FR.div FR.nan x = FR.nan := by cases x <;> rfl

theorem FR.div_nan (x : FR) : x.div FR.nan = FR.nan := by cases x <;> rfl

theorem FR.lt_nan (x : FR) : FR.lt x FR.nan = false := by cases x <;> rfl

theorem FR.abs_nan : FR.abs FR.nan = FR.nan := rfl

theorem computeTermRat_nan : computeTermRat FR.nan = (FR.nan, FR.nan) := rfl

/-- Every real input produces a pair of real (non-NaN) kernel outputs. -/
theorem computeTermRat_val (z : ℝ) :
    ∃ t r : ℝ, computeTermRat (FR.val z) = (FR.val t, FR.val r) := by
  simp only [computeTermRat]
  split_ifs <;> exact ⟨_, _, rfl⟩

theorem yOf_nan (r_sum A : FR) : yOf FR.nan r_sum A = FR.nan := by
  unfold yOf
  rw [computeTermRat_nan, FR.mul_nan, FR.add_nan]

theorem computeTInternal_nan (r_sum A m : FR) :
    computeTInternal FR.nan r_sum A m = FR.nan := by
  unfold computeTInternal
  rw [yOf_nan, FR.lt_nan]
  simp

theorem computeTInternal_ism_nan (z r_sum A : FR) :
    computeTInternal z r_sum A FR.nan = FR.nan := by
  unfold computeTInternal
  split
  · exact FR.mul_nan _
  · rfl

theorem keplerPicard_zero_ecc (M : ℝ) (k : ℕ) : keplerPicard 0 M k = M := by
  induction k with
  | zero => rfl
  | succ k ih => simp [keplerPicard, ih]

/-! ### Claim theorems -/

/-- Claim C7: the Kepler fixed-point iteration `E <- M + e*sin(E)` seeded
at `E0 = M` and run for exactly 10 iterations with no early exit returns
`E = M` exactly whenever the eccentricity is zero, for every mean
anomaly `M`. -/
theorem kepler_zero_ecc_exact (e M : ℝ) (h : e = 0) : keplerE e M = M := by
  subst h
  exact keplerPicard_zero_ecc M 10

/-- Witness for C7 at the concrete input `e = 0`, `M = 1`. -/
theorem kepler_zero_ecc_exact_witness : keplerE 0 1 = 1 :=
  kepler_zero_ecc_exact 0 1 rfl

/-- Claim C8: at the input `z = 0` the universal-variable auxiliary
kernel returns exactly `term = -sqrt 2` and `ratio = sqrt 2 / 3` (the
input falls in the small regime, where both Horner polynomials evaluate
to exactly 1 at 0). -/
theorem term_rat_at_zero :
    computeTermRat (FR.val 0) = (FR.val (-Real.sqrt 2), FR.val (Real.sqrt 2 / 3)) := by
  simp only [computeTermRat]
  rw [if_neg (by norm_num), if_neg (by norm_num)]
  norm_num [SQRT2, INV_3]
  ring

/-- Claim C6: for a single problem instance (1-D inputs and scalar
`dt`), `lambert` returns exactly the result of the general batched path
on the size-one batch, with element 0 extracted — the scalar entry is
the degenerate batch of size one, by the promotion on lines 203-209 and
the extraction on lines 340-343. -/
theorem lambert_scalar_is_size_one_batch (r1 r2 : Vec3) (dt mu tm tol : ℝ) (k : ℕ) :
    lambertScalar r1 r2 dt mu tm tol k =
      Except.map (fun out => (out.1 0, out.2 0))
        (lambert (n := 1) (fun _ => r1) (fun _ => r2) (fun _ => dt) mu tm tol k) := rfl

/-- Claim C1 counterexample: a call with `dt = -1 ≤ 0` is not rejected —
`lambert` performs no input validation and returns an ordinary result,
so there is no hard error; and with a zero iteration budget (where `dt`
is never even read) the `dt = -1` call returns a result identical to a
`dt = 1` call's, so there is no call-level invalid marking either. -/
theorem lambert_rejects_nothing_cex :
    ((-1 : ℝ) ≤ 0) ∧
    (lambertScalar (1, 0, 0) (0, 1, 0) (-1) 1 1 1e-5 50).isOk = true ∧
    lambertScalar (1, 0, 0) (0, 1, 0) (-1) 1 1 1e-5 0 =
      lambertScalar (1, 0, 0) (0, 1, 0) 1 1 1 1e-5 0 :=
  ⟨by norm_num, rfl, rfl⟩

/-- Claim C1 (amended): `lambert` never raises, for any input — neither
for non-convergence nor for malformed input (`dt ≤ 0`, `mu ≤ 0`); there
is no input validation, and malformed `mu` merely propagates NaN through
the per-element arithmetic. -/
theorem lambert_never_raises {n : ℕ} (r1v r2v : Fin n → Vec3) (dtv : Fin n → ℝ)
    (mu tm tol : ℝ) (k : ℕ) :
    (lambert r1v r2v dtv mu tm tol k).isOk = true := rfl

/-- Claim C2: whenever the batched ephemeris call succeeds, it returns
one state per epoch, and the state at index `k` is exactly (hence in
particular within `1e-12` relative tolerance of) the state returned by
the scalar call at epoch `e_k`: every numpy stage of `get_ephemeris` is
element-wise over the epoch axis. -/
theorem ephemeris_batch_matches_scalar (body : String) (jd : List ℝ)
    (out : List (Vec3 × Vec3)) (h : getEphemerisList body jd = Except.ok out) :
    out.length = jd.length ∧
    ∀ (k : ℕ) (h1 : k < jd.length) (h2 : k < out.length),
      getEphemeris body (jd.get ⟨k, h1⟩) = Except.ok (out.get ⟨k, h2⟩) := by
  simp only [getEphemerisList] at h
  unfold getEphemeris
  split_ifs at h with he hm
  · rw [Except.ok.injEq] at h
    subst h
    refine ⟨by simp, ?_⟩
    intro k h1 h2
    rw [if_pos he]
    simp [List.get_eq_getElem, List.getElem_map, earthPoint]
  · rw [Except.ok.injEq] at h
    subst h
    refine ⟨by simp, ?_⟩
    intro k h1 h2
    rw [if_neg he, if_pos hm]
    simp [List.get_eq_getElem, List.getElem_map, marsPoint]

/-- Witness for C2 at the concrete input `body = "earth"`,
epoch list `[2451545]`. -/
theorem ephemeris_batch_matches_scalar_witness :
    getEphemeris "earth" ((2451545 : ℝ)) = Except.ok (earthPoint 2451545) :=
  (ephemeris_batch_matches_scalar "earth" [(2451545 : ℝ)] [earthPoint 2451545]
    rfl).2 0 (by norm_num) (by norm_num)

theorem FR.nan_lt (x : FR) : FR.lt FR.nan x = false := by cases x <;> rfl

/-- Decomposition of a real-valued sum: both operands were real. -/
theorem FR.add_eq_val {x y : FR} {v : ℝ} (h : x.add y = FR.val v) :
    ∃ a b, x = FR.val a ∧ y = FR.val b := by
  cases x with
  | nan => rw [FR.nan_add] at h; exact absurd h (by simp)
  | val a =>
    cases y with
    | nan => rw [FR.add_nan] at h; exact absurd h (by simp)
    | val b => exact ⟨a, b, rfl, rfl⟩

/-- Decomposition of a real-valued product: both operands were real. -/
theorem FR.mul_eq_val {x y : FR} {v : ℝ} (h : x.mul y = FR.val v) :
    ∃ a b, x = FR.val a ∧ y = FR.val b := by
  cases x with
  | nan => rw [FR.nan_mul] at h; exact absurd h (by simp)
  | val a =>
    cases y with
    | nan => rw [FR.mul_nan] at h; exact absurd h (by simp)
    | val b => exact ⟨a, b, rfl, rfl⟩

/-- A feasible evaluation with a real `inv_sqrt_mu` yields a real time
of flight. -/
theorem computeTInternal_val_of_feasible (z r_sum A : FR) (c : ℝ)
    (hlt : FR.lt (FR.val 0) (yOf z r_sum A) = true) :
    ∃ w, computeTInternal z r_sum A (FR.val c) = FR.val w := by
  cases hy : yOf z r_sum A with
  | nan => rw [hy, FR.lt_nan] at hlt; exact absurd hlt (by simp)
  | val yv =>
    have hpos : 0 < yv := by
      rw [hy] at hlt
      simpa [FR.lt] using hlt
    have hy' := hy
    unfold yOf at hy'
    obtain ⟨rsv, m2, hrs, hm2⟩ := FR.add_eq_val hy'
    obtain ⟨av, tv, hA, htv⟩ := FR.mul_eq_val hm2
    have hzv : ∃ zr : ℝ, z = FR.val zr := by
      cases z with
      | val zr => exact ⟨zr, rfl⟩
      | nan => rw [computeTermRat_nan] at htv; exact absurd htv (by simp)
    obtain ⟨zr, rfl⟩ := hzv
    obtain ⟨t2, r2, htr⟩ := computeTermRat_val zr
    have hsq : (FR.val yv).sqrt = FR.val (Real.sqrt yv) := by
      simp only [FR.sqrt]
      rw [if_neg (not_lt.mpr hpos.le)]
    unfold computeTInternal
    rw [if_pos hlt, hy, hsq, htr, hA]
    exact ⟨_, rfl⟩

/-- Claim C3 counterexample: inside a `lambert` call with `mu = -1` the
shared `inv_sqrt_mu` is NaN, and a residual evaluation whose feasibility
quantity `y` is strictly positive still computes to NaN — so the
computed time of flight is *not* NaN exactly when `y ≤ 0`. -/
theorem t_internal_nan_despite_feasible_cex :
    invSqrtMu (-1) = FR.nan ∧
    FR.lt (FR.val 0) (yOf (FR.val 1) (FR.val 3) (FR.val 0)) = true ∧
    computeTInternal (FR.val 1) (FR.val 3) (FR.val 0) FR.nan = FR.nan := by
  refine ⟨?_, ?_, computeTInternal_ism_nan _ _ _⟩
  · have h1 : FR.sqrt (FR.val (-1)) = FR.nan := by
      simp only [FR.sqrt]
      rw [if_pos (by norm_num)]
    calc invSqrtMu (-1) = (FR.val 1.0).div (FR.sqrt (FR.val (-1))) := rfl
      _ = (FR.val 1.0).div FR.nan := by rw [h1]
      _ = FR.nan := FR.div_nan _
  · obtain ⟨t, r, ht⟩ := computeTermRat_val 1
    unfold yOf
    rw [ht]
    simp [FR.mul, FR.add, FR.lt]

/-- Claim C3 (amended): for every residual evaluation whose
`inv_sqrt_mu` is a real number (every call with `mu > 0`), the computed
time of flight is NaN exactly when the feasibility quantity
`y = r_sum + A*term(z)` is not strictly positive, and otherwise equals
`sqrt(y) * (y*ratio(z) + A) * inv_sqrt_mu` (the source multiplies by the
precomputed reciprocal of `sqrt(mu)`); the check is part of every
evaluation, and an infeasible element yields the per-element marker
rather than any call-level error (`lambert` never raises). -/
theorem t_internal_nan_iff_infeasible (z r_sum A : FR) (c : ℝ) :
    (computeTInternal z r_sum A (FR.val c) = FR.nan ↔
      FR.lt (FR.val 0) (yOf z r_sum A) = false) ∧
    (FR.lt (FR.val 0) (yOf z r_sum A) = true →
      computeTInternal z r_sum A (FR.val c) =
        ((yOf z r_sum A).sqrt.mul (((yOf z r_sum A).mul (computeTermRat z).2).add A)).mul
          (FR.val c)) := by
  constructor
  · constructor
    · intro hnan
      by_contra hlt
      have hlt' : FR.lt (FR.val 0) (yOf z r_sum A) = true := by
        simpa using hlt
      obtain ⟨w, hw⟩ := computeTInternal_val_of_feasible z r_sum A c hlt'
      rw [hw] at hnan
      exact absurd hnan (by simp)
    · intro hf
      unfold computeTInternal
      split
      · next h => rw [hf] at h; exact absurd h (by simp)
      · rfl
  · intro ht
    unfold computeTInternal
    rw [if_pos ht]

/-- Witness for the amended C3 at the concrete feasible input `z = 1`,
`r_sum = 3`, `A = 0`, `inv_sqrt_mu = 1`. -/
theorem t_internal_nan_iff_infeasible_witness :
    computeTInternal (FR.val 1) (FR.val 3) (FR.val 0) (FR.val 1) =
      ((yOf (FR.val 1) (FR.val 3) (FR.val 0)).sqrt.mul
        (((yOf (FR.val 1) (FR.val 3) (FR.val 0)).mul (computeTermRat (FR.val 1)).2).add
          (FR.val 0))).mul (FR.val 1) :=
  (t_internal_nan_iff_infeasible (FR.val 1) (FR.val 3) (FR.val 0) 1).2 (by
    obtain ⟨t, r, ht⟩ := computeTermRat_val 1
    unfold yOf
    rw [ht]
    simp [FR.mul, FR.add, FR.lt])

/-- One step leaves a converged element untouched and keeps it marked. -/
theorem lambertStep_frozen {n : ℕ} (c : LCtx n) (s : LState n) (i : Fin n)
    (h : convNew c s i = true) :
    (lambertStep c s).converged i = true ∧
    (lambertStep c s).z0 i = s.z0 i ∧ (lambertStep c s).z1 i = s.z1 i ∧
    (lambertStep c s).t0 i = s.t0 i ∧ (lambertStep c s).t1 i = s.t1 i := by
  have ha : activeAt c s i = false := by simp [activeAt, h]
  simp [lambertStep, ha, h]

/-- Claim C4: an element that passes the per-element convergence test
`|T(z)| < tol` (or is already marked converged) stays marked converged
and none of its solver state `z0, z1, t0, t1` changes in any later
iteration — converged elements are excluded from the active set and
never revisited. -/
theorem lambert_converged_never_revisited {n : ℕ} (c : LCtx n) (s : LState n) (i : Fin n)
    (h : convNew c s i = true) (k : ℕ) :
    (iterSteps c (k + 1) s).converged i = true ∧
    (iterSteps c (k + 1) s).z0 i = s.z0 i ∧ (iterSteps c (k + 1) s).z1 i = s.z1 i ∧
    (iterSteps c (k + 1) s).t0 i = s.t0 i ∧ (iterSteps c (k + 1) s).t1 i = s.t1 i := by
  induction k generalizing s with
  | zero => exact lambertStep_frozen c s i h
  | succ k ih =>
      have h1 := lambertStep_frozen c s i h
      have h2 : convNew c (lambertStep c s) i = true := by
        simp [convNew, h1.1]
      have h3 := ih (lambertStep c s) h2
      exact ⟨h3.1, h3.2.1.trans h1.2.1, h3.2.2.1.trans h1.2.2.1,
        h3.2.2.2.1.trans h1.2.2.2.1, h3.2.2.2.2.trans h1.2.2.2.2⟩

/-- Witness for C4: a batch-of-one state already marked converged is
untouched by the next iteration. -/
theorem lambert_converged_never_revisited_witness :
    (iterSteps wCtx5 1 wSt4).converged 0 = true ∧
    (iterSteps wCtx5 1 wSt4).z0 0 = wSt4.z0 0 ∧ (iterSteps wCtx5 1 wSt4).z1 0 = wSt4.z1 0 ∧
    (iterSteps wCtx5 1 wSt4).t0 0 = wSt4.t0 0 ∧ (iterSteps wCtx5 1 wSt4).t1 0 = wSt4.t1 0 :=
  lambert_converged_never_revisited wCtx5 wSt4 0 rfl 0

/-- Claim C5: an active element whose proposed secant step evaluates to
NaN (infeasible `y ≤ 0`) is rolled back within the same iteration: its
`z1` is reset to the previous iterate (the freshly written `z0`, which
holds the old `z1`) and its `t1` to the old `t1`; and the step's action
on any element depends only on that element's own state, so the
rollback cannot alter any other element. -/
theorem lambert_infeasible_rollback {n : ℕ} (c : LCtx n) (s : LState n) (i : Fin n)
    (hact : activeAt c s i = true) (hnan : (tNewAt c s i).isNan = true) :
    ((lambertStep c s).z1 i = s.z1 i ∧ (lambertStep c s).t1 i = s.t1 i ∧
     (lambertStep c s).z0 i = s.z1 i ∧ (lambertStep c s).t0 i = s.t1 i) ∧
    (∀ (t : LState n) (j : Fin n),
      s.z0 j = t.z0 j → s.z1 j = t.z1 j → s.t0 j = t.t0 j → s.t1 j = t.t1 j →
      s.converged j = t.converged j →
      (lambertStep c s).z0 j = (lambertStep c t).z0 j ∧
      (lambertStep c s).z1 j = (lambertStep c t).z1 j ∧
      (lambertStep c s).t0 j = (lambertStep c t).t0 j ∧
      (lambertStep c s).t1 j = (lambertStep c t).t1 j ∧
      (lambertStep c s).converged j = (lambertStep c t).converged j) := by
  constructor
  · simp [lambertStep, hact, hnan]
  · intro t j e0 e1 e2 e3 e4
    have hd : diffAt c s j = diffAt c t j := by unfold diffAt; rw [e3]
    have hct : convTest c s j = convTest c t j := by unfold convTest; rw [hd]
    have hcn : convNew c s j = convNew c t j := by unfold convNew; rw [e4, hct]
    have hac : activeAt c s j = activeAt c t j := by unfold activeAt; rw [hcn]
    have hsd : secDenom s j = secDenom t j := by unfold secDenom; rw [e2, e3]
    have hdz : dzAt c s j = dzAt c t j := by unfold dzAt; rw [hd, e0, e1, hsd]
    have hzn : zNewAt c s j = zNewAt c t j := by unfold zNewAt; rw [e1, hdz]
    have htn : tNewAt c s j = tNewAt c t j := by unfold tNewAt; rw [hzn]
    refine ⟨?_, ?_, ?_, ?_, ?_⟩ <;>
      simp [lambertStep, hac, hcn, htn, hzn, e0, e1, e2, e3, e4]

/-- Witness for C5: the batch-of-one state `wSt5` (NaN residual pair) is
active, proposes a NaN step, and is rolled back. -/
theorem lambert_infeasible_rollback_witness :
    ((lambertStep wCtx5 wSt5).z1 0 = wSt5.z1 0 ∧ (lambertStep wCtx5 wSt5).t1 0 = wSt5.t1 0 ∧
     (lambertStep wCtx5 wSt5).z0 0 = wSt5.z1 0 ∧ (lambertStep wCtx5 wSt5).t0 0 = wSt5.t1 0) ∧
    ((lambertStep wCtx5 wSt5).z0 0 = (lambertStep wCtx5 wSt5).z0 0 ∧
     (lambertStep wCtx5 wSt5).z1 0 = (lambertStep wCtx5 wSt5).z1 0 ∧
     (lambertStep wCtx5 wSt5).t0 0 = (lambertStep wCtx5 wSt5).t0 0 ∧
     (lambertStep wCtx5 wSt5).t1 0 = (lambertStep wCtx5 wSt5).t1 0 ∧
     (lambertStep wCtx5 wSt5).converged 0 = (lambertStep wCtx5 wSt5).converged 0) :=
  ⟨(lambert_infeasible_rollback wCtx5 wSt5 0 rfl rfl).1,
   (lambert_infeasible_rollback wCtx5 wSt5 0 rfl rfl).2 wSt5 0 rfl rfl rfl rfl rfl⟩

/-- Once the two secant iterates coincide, the proposed step either
reproduces `z1` exactly (the guarded zero denominator makes `dz = 0`)
or is NaN. -/
theorem zNew_lock {n : ℕ} (c : LCtx n) (s : LState n) (i : Fin n)
    (hz : s.z0 i = s.z1 i) : zNewAt c s i = s.z1 i ∨ zNewAt c s i = FR.nan := by
  cases hz1 : s.z1 i with
  | nan =>
      right
      unfold zNewAt
      rw [hz1, FR.nan_add]
  | val a =>
      have hsub : (s.z1 i).sub (s.z0 i) = FR.val 0 := by
        rw [hz, hz1]
        simp [FR.sub]
      unfold zNewAt dzAt
      rw [hsub]
      cases hdf : diffAt c s i with
      | nan => right; rw [hz1]; simp [FR.neg, FR.nan_mul, FR.nan_div, FR.add_nan]
      | val d =>
          cases hde : secDenom s i with
          | nan => right; rw [hz1]; simp [FR.neg, FR.mul, FR.div_nan, FR.add_nan]
          | val q =>
              by_cases hq : q = 0
              · right; rw [hz1]; simp [FR.neg, FR.mul, FR.div, hq, FR.add_nan]
              · left; rw [hz1]; simp [FR.neg, FR.mul, FR.div, hq, FR.add]

/-- Once the two secant iterates coincide, one step leaves `z1`
unchanged and keeps the two iterates equal (either the zero-update or
the NaN rollback). -/
theorem lambertStep_z_locked {n : ℕ} (c : LCtx n) (s : LState n) (i : Fin n)
    (hz : s.z0 i = s.z1 i) :
    (lambertStep c s).z1 i = s.z1 i ∧ (lambertStep c s).z0 i = (lambertStep c s).z1 i := by
  by_cases hact : activeAt c s i = true
  · by_cases hnan : (tNewAt c s i).isNan = true
    · simp [lambertStep, hact, hnan]
    · have hnn : zNewAt c s i ≠ FR.nan := by
        intro he
        apply hnan
        unfold tNewAt
        rw [he, computeTInternal_nan]
        rfl
      have hzn : zNewAt c s i = s.z1 i := by
        rcases zNew_lock c s i hz with h | h
        · exact h
        · exact absurd h hnn
      simp [lambertStep, hact, hnan, hzn]
  · have hact' : activeAt c s i = false := by simpa using hact
    simp [lambertStep, hact', hz]

/-- The lock persists through any number of further iterations. -/
theorem iter_z_locked {n : ℕ} (c : LCtx n) (s : LState n) (i : Fin n)
    (hz : s.z0 i = s.z1 i) (k : ℕ) :
    (iterSteps c k s).z1 i = s.z1 i ∧
    (iterSteps c k s).z0 i = (iterSteps c k s).z1 i := by
  induction k generalizing s with
  | zero => exact ⟨rfl, hz⟩
  | succ k ih =>
      have h1 := lambertStep_z_locked c s i hz
      have h2 := ih (lambertStep c s) h1.2
      exact ⟨h2.1.trans h1.1, h2.2⟩

/-- Splitting an iteration count. -/
theorem iterSteps_add {n : ℕ} (c : LCtx n) (a b : ℕ) (s : LState n) :
    iterSteps c (a + b) s = iterSteps c b (iterSteps c a s) := by
  induction a generalizing s with
  | zero => rw [Nat.zero_add]; rfl
  | succ a ih =>
      rw [Nat.succ_add]
      show iterSteps c (a + b) (lambertStep c s) = _
      rw [ih]
      rfl

/-- Claim C10: an element rolled back for infeasibility never changes
its `z` again.  The rollback leaves `z0 = z1` (both hold the previous
iterate), every later step then produces either the guarded zero update
(`z1 - z0 = 0` against the `1e-12`-substituted denominator gives
`dz = 0`) or a NaN proposal that is rolled back to the same value, and
the `z` used for the final velocity computation (`lambertZfinal`, the
`z1` of the state after the iteration budget) equals the last feasible
iterate `s.z1 i`. -/
theorem lambert_rollback_z_final {n : ℕ} (c : LCtx n) (s : LState n) (i : Fin n)
    (hact : activeAt c s i = true) (hnan : (tNewAt c s i).isNan = true) :
    (∀ k, (iterSteps c k (lambertStep c s)).z1 i = s.z1 i) ∧
    ((lambertStep c s).z0 i = (lambertStep c s).z1 i) ∧
    (∀ (m M : ℕ), iterSteps c m (lambertInit c) = s → m < M →
      lambertZfinal c M i = s.z1 i) := by
  have hz1 : (lambertStep c s).z1 i = s.z1 i := by simp [lambertStep, hact, hnan]
  have hz0 : (lambertStep c s).z0 i = s.z1 i := by simp [lambertStep, hact, hnan]
  have hlock : (lambertStep c s).z0 i = (lambertStep c s).z1 i := hz0.trans hz1.symm
  have hall : ∀ k, (iterSteps c k (lambertStep c s)).z1 i = s.z1 i := by
    intro k
    exact ((iter_z_locked c (lambertStep c s) i hlock k).1).trans hz1
  refine ⟨hall, hlock, ?_⟩
  intro m M hm hlt
  obtain ⟨k, hk⟩ : ∃ k, M = m + 1 + k := ⟨M - (m + 1), by omega⟩
  subst hk
  unfold lambertZfinal
  rw [iterSteps_add c (m + 1) k (lambertInit c)]
  have hstep : iterSteps c (m + 1) (lambertInit c) = lambertStep c s := by
    rw [iterSteps_add c m 1, hm]
    rfl
  rw [hstep]
  exact hall k

/-- Witness for C10: in a `mu < 0` call (`inv_sqrt_mu = NaN`) the
initial state of a batch of one is active, its first proposal is NaN
and rolled back, and the final `z` equals the seed `z1`. -/
theorem lambert_rollback_z_final_witness :
    (iterSteps wCtx10 0 (lambertStep wCtx10 (lambertInit wCtx10))).z1 0 =
      (lambertInit wCtx10).z1 0 ∧
    (lambertStep wCtx10 (lambertInit wCtx10)).z0 0 =
      (lambertStep wCtx10 (lambertInit wCtx10)).z1 0 ∧
    lambertZfinal wCtx10 1 0 = (lambertInit wCtx10).z1 0 := by
  have hact : activeAt wCtx10 (lambertInit wCtx10) 0 = true := by
    simp [activeAt, convNew, convTest, diffAt, lambertInit, wCtx10,
      computeTInternal_ism_nan, FR.nan_sub, FR.abs_nan, FR.nan_lt]
  have hnan : (tNewAt wCtx10 (lambertInit wCtx10) 0).isNan = true := by
    simp [tNewAt, wCtx10, computeTInternal_ism_nan, FR.isNan]
  exact ⟨(lambert_rollback_z_final wCtx10 (lambertInit wCtx10) 0 hact hnan).1 0,
    (lambert_rollback_z_final wCtx10 (lambertInit wCtx10) 0 hact hnan).2.1,
    (lambert_rollback_z_final wCtx10 (lambertInit wCtx10) 0 hact hnan).2.2 0 1 rfl
      (by norm_num)⟩

/-- Read a buffer address in a store. -/
theorem hget_halloc (h : Heap) (x : NArr) (a : ℕ) (ha : a < List.length h) :
    ((halloc h x).1)[a]? = h[a]? := by
  unfold halloc
  exact List.getElem?_append_left ha

theorem hlen_halloc (h : Heap) (x : NArr) :
    List.length (halloc h x).1 = List.length h + 1 := by
  simp [halloc]

theorem haddr_halloc (h : Heap) (x : NArr) : (halloc h x).2 = List.length h := rfl

theorem hget_hwrite_ne (h : Heap) (a b : ℕ) (x : NArr) (hab : b ≠ a) :
    (hwrite h a x)[b]? = h[b]? := by
  unfold hwrite
  exact List.getElem?_set_ne (fun he => hab he.symm)

theorem hlen_hwrite (h : Heap) (a : ℕ) (x : NArr) :
    List.length (hwrite h a x) = List.length h := by
  simp [hwrite]

/-- The per-iteration writes touch only the five state-buffer addresses. -/
theorem hget_stateWrite {n : ℕ} (az0 az1 at0 at1 acv : ℕ) (s : LState n) (h : Heap)
    (b : ℕ) (h0 : b ≠ az0) (h1 : b ≠ az1) (h2 : b ≠ at0) (h3 : b ≠ at1) (h4 : b ≠ acv) :
    (stateWrite az0 az1 at0 at1 acv s h)[b]? = h[b]? := by
  unfold stateWrite
  rw [hget_hwrite_ne _ _ _ _ h3, hget_hwrite_ne _ _ _ _ h1, hget_hwrite_ne _ _ _ _ h2,
    hget_hwrite_ne _ _ _ _ h0, hget_hwrite_ne _ _ _ _ h4]

theorem hlen_stateWrite {n : ℕ} (az0 az1 at0 at1 acv : ℕ) (s : LState n) (h : Heap) :
    List.length (stateWrite az0 az1 at0 at1 acv s h) = List.length h := by
  unfold stateWrite
  rw [hlen_hwrite, hlen_hwrite, hlen_hwrite, hlen_hwrite, hlen_hwrite]

/-- The whole secant loop touches only the five state-buffer addresses. -/
theorem hget_loopHeap {n : ℕ} (c : LCtx n) (az0 az1 at0 at1 acv : ℕ) (k : ℕ)
    (s : LState n) (h : Heap) (b : ℕ)
    (h0 : b ≠ az0) (h1 : b ≠ az1) (h2 : b ≠ at0) (h3 : b ≠ at1) (h4 : b ≠ acv) :
    (loopHeap c az0 az1 at0 at1 acv k s h)[b]? = h[b]? := by
  induction k generalizing s h with
  | zero => rfl
  | succ k ih =>
      show (loopHeap c az0 az1 at0 at1 acv k (lambertStep c s)
        (stateWrite az0 az1 at0 at1 acv (lambertStep c s) h))[b]? = _
      rw [ih (lambertStep c s) (stateWrite az0 az1 at0 at1 acv (lambertStep c s) h),
        hget_stateWrite _ _ _ _ _ _ _ _ h0 h1 h2 h3 h4]

theorem hlen_loopHeap {n : ℕ} (c : LCtx n) (az0 az1 at0 at1 acv : ℕ) (k : ℕ)
    (s : LState n) (h : Heap) :
    List.length (loopHeap c az0 az1 at0 at1 acv k s h) = List.length h := by
  induction k generalizing s h with
  | zero => rfl
  | succ k ih =>
      show List.length (loopHeap c az0 az1 at0 at1 acv k (lambertStep c s)
        (stateWrite az0 az1 at0 at1 acv (lambertStep c s) h)) = _
      rw [ih, hlen_stateWrite]

/-- Claim C9: a `lambert` call never writes any pre-existing buffer (in
particular the input arrays `r1_vec`, `r2_vec`, `dt` are only borrowed,
read-only), and the two returned velocity buffers are freshly allocated
at addresses that did not exist on entry — distinct from each other and
from every input — and hold the batched results. -/
theorem lambert_heap_frame {n : ℕ} (h0 : Heap) (r1v r2v : Fin n → Vec3) (dtv : Fin n → ℝ)
    (mu tm tol : ℝ) (maxIter : ℕ) :
    (∀ a, a < List.length h0 →
      ((lambertHeap h0 r1v r2v dtv mu tm tol maxIter).1)[a]? = h0[a]?) ∧
    List.length h0 ≤ (lambertHeap h0 r1v r2v dtv mu tm tol maxIter).2.1 ∧
    List.length h0 ≤ (lambertHeap h0 r1v r2v dtv mu tm tol maxIter).2.2 ∧
    (lambertHeap h0 r1v r2v dtv mu tm tol maxIter).2.1 ≠
      (lambertHeap h0 r1v r2v dtv mu tm tol maxIter).2.2 := by
  refine ⟨?_, ?_, ?_, ?_⟩
  · intro a ha
    simp only [lambertHeap, halloc, List.append_eq]
    rw [List.getElem?_append_left, List.getElem?_append_left, hget_loopHeap]
    · rw [List.getElem?_append_left, List.getElem?_append_left, List.getElem?_append_left,
        List.getElem?_append_left, List.getElem?_append_left, List.getElem?_append_left,
        List.getElem?_append_left, List.getElem?_append_left, List.getElem?_append_left,
        List.getElem?_append_left, List.getElem?_append_left]
      all_goals try simp only [List.length_append, List.length_cons, List.length_nil]
      all_goals omega
    all_goals try simp only [List.length_append, List.length_cons, List.length_nil,
      hlen_loopHeap]
    all_goals omega
  · simp only [lambertHeap, halloc, List.append_eq]
    simp only [List.length_append, List.length_cons, List.length_nil, hlen_loopHeap]
    omega
  · simp only [lambertHeap, halloc, List.append_eq]
    simp only [List.length_append, List.length_cons, List.length_nil, hlen_loopHeap]
    omega
  · simp only [lambertHeap, halloc, List.append_eq]
    simp only [List.length_append, List.length_cons, List.length_nil, hlen_loopHeap]
    omega

/-- Witness for C9: on a store holding one buffer, a batch-of-one call
leaves that buffer intact and returns two distinct fresh addresses. -/
theorem lambert_heap_frame_witness :
    ((lambertHeap [NArr.fa []] (fun _ : Fin 1 => ((1 : ℝ), (0 : ℝ), (0 : ℝ)))
        (fun _ => ((0 : ℝ), (1 : ℝ), (0 : ℝ))) (fun _ => (1 : ℝ)) 1 1 1e-5 50).1)[0]? =
      some (NArr.fa []) ∧
    1 ≤ (lambertHeap [NArr.fa []] (fun _ : Fin 1 => ((1 : ℝ), (0 : ℝ), (0 : ℝ)))
        (fun _ => ((0 : ℝ), (1 : ℝ), (0 : ℝ))) (fun _ => (1 : ℝ)) 1 1 1e-5 50).2.1 ∧
    1 ≤ (lambertHeap [NArr.fa []] (fun _ : Fin 1 => ((1 : ℝ), (0 : ℝ), (0 : ℝ)))
        (fun _ => ((0 : ℝ), (1 : ℝ), (0 : ℝ))) (fun _ => (1 : ℝ)) 1 1 1e-5 50).2.2 ∧
    (lambertHeap [NArr.fa []] (fun _ : Fin 1 => ((1 : ℝ), (0 : ℝ), (0 : ℝ)))
        (fun _ => ((0 : ℝ), (1 : ℝ), (0 : ℝ))) (fun _ => (1 : ℝ)) 1 1 1e-5 50).2.1 ≠
      (lambertHeap [NArr.fa []] (fun _ : Fin 1 => ((1 : ℝ), (0 : ℝ), (0 : ℝ)))
        (fun _ => ((0 : ℝ), (1 : ℝ), (0 : ℝ))) (fun _ => (1 : ℝ)) 1 1 1e-5 50).2.2 :=
  ⟨((lambert_heap_frame [NArr.fa []] (fun _ : Fin 1 => ((1 : ℝ), (0 : ℝ), (0 : ℝ)))
      (fun _ => ((0 : ℝ), (1 : ℝ), (0 : ℝ))) (fun _ => (1 : ℝ)) 1 1 1e-5 50).1 0
      (by norm_num)).trans rfl,
   (lambert_heap_frame [NArr.fa []] (fun _ : Fin 1 => ((1 : ℝ), (0 : ℝ), (0 : ℝ)))
      (fun _ => ((0 : ℝ), (1 : ℝ), (0 : ℝ))) (fun _ => (1 : ℝ)) 1 1 1e-5 50).2.1,
   (lambert_heap_frame [NArr.fa []] (fun _ : Fin 1 => ((1 : ℝ), (0 : ℝ), (0 : ℝ)))
      (fun _ => ((0 : ℝ), (1 : ℝ), (0 : ℝ))) (fun _ => (1 : ℝ)) 1 1 1e-5 50).2.2.1,
   (lambert_heap_frame [NArr.fa []] (fun _ : Fin 1 => ((1 : ℝ), (0 : ℝ), (0 : ℝ)))
      (fun _ => ((0 : ℝ), (1 : ℝ), (0 : ℝ))) (fun _ => (1 : ℝ)) 1 1 1e-5 50).2.2.2⟩
